import Mathlib

/-!
Shallow embedding of the jucardi/go-streams pipeline engine (the generics
implementation: `Stream[T comparable]` and its collections) together with the
parts of the collection layer the verified claims refer to.

Conventions of the embedding:

* A Go slice of `T` is a `List T`; slice indices are `Int` where the Go code
  uses `int` in a place where negative values can reach the check, and `Nat`
  where the surrounding loop only ever produces non-negative values.
* The Go zero value of the element type (`var defaultV T`) is `default` of an
  `Inhabited` instance (`0` for `Int`, `""` for `String`, matching Go).
* `runtime.NumCPU()` is an explicit parameter `numCPU`.
* Goroutine scheduling in `parallelProcessHandler` is modelled by an explicit
  `arrivals : List Nat` parameter: the worker indices in the order in which
  their results are read from the channel.  A real execution corresponds to
  `arrivals` being a permutation of `List.range cores`.
* `sort.Slice` from the Go standard library is modelled by its documented
  contract — it permutes the array so that it is sorted with respect to the
  provided `less` function — realised here as `List.insertionSort` over the
  relation `fun a b => less b a = false`.
* A Go panic is modelled by `Option`/`none` on the functions that can reach
  one.
-/

namespace GoStreams

/-- One registered sort stage of `Stream`: the Go struct
`sortFunc[T]{ fn SortFunc[T]; desc bool }` where `SortFunc[T] = func(T, T) int`. -/
structure SortStage (T : Type) where
  fn : T → T → Int
  desc : Bool

variable {T : Type} [DecidableEq T] [Inhabited T]

/-- One iteration of the comparator loop body in `sorter.makeLessFunc`:
`val = sorter.fn(x, y); if sorter.desc { val = val * -1 }`. -/
def applyStage (c : SortStage T) (x y : T) : Int :=
  if c.desc then -(c.fn x y) else c.fn x y

/-- The loop of `sorter.makeLessFunc`: evaluate the registered comparators in
order and keep the first non-zero (descending-adjusted) result; `0` when every
stage ties. -/
def chainCmp : List (SortStage T) → T → T → Int
  | [], _, _ => 0
  | c :: rest, x, y =>
    if applyStage c x y = 0 then chainCmp rest x y else applyStage c x y

/-- The `less` closure returned by `sorter.makeLessFunc`: `val < 0`. -/
def lessGo (sorts : List (SortStage T)) (x y : T) : Bool :=
  decide (chainCmp sorts x y < 0)

/-- Model of `sort.Slice(so.array, so.makeLessFunc())`, by the contract of the
Go `sort` package: the result is a permutation of the input that is sorted with
respect to `less` (that is, `less b a` fails whenever `a` appears before `b`).
Realised as insertion sort over `fun a b => lessGo sorts b a = false`. -/
def sortSliceModel (sorts : List (SortStage T)) (l : List T) : List T :=
  List.insertionSort (fun a b => lessGo sorts b a = false) l

/-- The generic `Stream[T]` value: the source collection, the registered
filters, the registered sort stages, the distinct flag and the worker-count
setting (`threads int`, already normalised by `getCores` on construction). -/
structure StreamM (T : Type) where
  iterable : List T
  filters : List (T → Bool)
  sorts : List (SortStage T)
  distinct : Bool
  threads : Int

/-- The body of `set.Add` for a single item: insert into the uniqueness index
if absent.  The insertion-ordered list stands for the Go map's key set. -/
def setAdd (acc : List T) (x : T) : List T :=
  if x ∈ acc then acc else acc ++ [x]

/-- Adding every element of `l` in order to a fresh `NewSet[T]()`, as the
distinct branch of `Stream.iterHandler` does. -/
def dedupGo (l : List T) : List T := l.foldl setAdd []

/-- The inner filter loop of `Stream.iterHandler`: `match` starts true, is
and-ed with each registered filter and short-circuits on the first failure. -/
def filtersAll (fs : List (T → Bool)) (x : T) : Bool := fs.all fun f => f x

/-- `Stream.iterHandler(iterable, start, end)`.  When no filters are registered
and the distinct flag is off it returns `s.iterable` (the whole source, not the
requested range — the early return in the Go code ignores `start`/`end`).
Otherwise it traverses the element positions in `[start, min(end, len))`
(the `for x := iterator.Current(); iterator.HasNext() && i < end; x =
iterator.Next()` loop) and adds every element passing all filters to a fresh
`NewSet` (distinct) or `NewList` (otherwise). -/
def iterHandler (s : StreamM T) (arr : List T) (start stop : Nat) : List T :=
  if s.filters.isEmpty && !s.distinct then s.iterable
  else
    let matched := ((arr.take stop).drop start).filter (filtersAll s.filters)
    if s.distinct then dedupGo matched else matched

/-- `getCores()` with no argument, as used for a stream built without an
explicit thread count: returns `1`. -/
def getCoresNoArg : Int := 1

/-- `getCores(threads)` with an argument: `runtime.NumCPU()` when the request
is non-positive, otherwise the request itself (the computed `maxCores` is not
applied to positive requests). -/
def getCores (numCPU : Nat) (threads : Int) : Int :=
  if threads ≤ 0 then (numCPU : Int) else threads

/-- `Stream.SetThreads(n)` / `updateCores`: the stored worker-count becomes
`getCores(n)`. -/
def setThreadsGo (numCPU : Nat) (n : Int) : Int := getCores numCPU n

/-- The worker count actually used by `Stream.parallelProcessHandler`:
`cores := getCores(threads)` capped at the element count
(`if iterable.Len() < cores { cores = iterable.Len() }`). -/
def parallelCores (numCPU : Nat) (threads : Int) (len : Nat) : Int :=
  if (len : Int) < getCores numCPU threads then (len : Int) else getCores numCPU threads

/-- The worker count used by a parallel run after `SetThreads(n)` on a source
of `len` elements: `SetThreads` stores `getCores(n)` and
`parallelProcessHandler` re-applies `getCores` and the length cap. -/
def effectiveThreads (numCPU : Nat) (n : Int) (len : Nat) : Int :=
  parallelCores numCPU (setThreadsGo numCPU n) len

/-- `Stream.parallelProcessHandler(iterable, threads)`: splits `[0, len)` into
`cores` ranges of `ceil(len / cores)` positions, runs `iterHandler` on each
range, and concatenates the worker results in channel-arrival order
(`arrivals`; a real run has `arrivals` a permutation of `List.range cores`).
With `cores = 0` (empty source) no worker is started and the fresh result list
stays empty. -/
def parallelHandler (numCPU : Nat) (arrivals : List Nat) (s : StreamM T)
    (arr : List T) (threads : Int) : List T :=
  let cores := (parallelCores numCPU threads arr.length).toNat
  let sliceSize := if cores = 0 then 0 else (arr.length + cores - 1) / cores
  (arrivals.map fun i => iterHandler s arr (i * sliceSize) ((i + 1) * sliceSize)).flatten

/-- The single-threaded branch of `Stream.process`, returning both the
processed result and the source contents after the call.  `s.filter` runs
`iterHandler` over the whole range; `s.sort` is the identity when no
comparator is registered, otherwise it calls `sort.Slice` on
`iterable.ToArray()`.  `arrayCollection.ToArray` returns the backing slice
itself, so when the collection reaching `sort` is still the source collection
(no filter registered and distinct off — the `iterHandler` early return) the
in-place `sort.Slice` reorders the source's own backing array; in every other
case `sort` touches only a freshly built collection.  The second component
records the source contents after the call. -/
def process1 (s : StreamM T) : List T × List T :=
  let filtered := iterHandler s s.iterable 0 s.iterable.length
  if s.sorts.isEmpty then (filtered, s.iterable)
  else
    let sorted := sortSliceModel s.sorts filtered
    (sorted, if s.filters.isEmpty && !s.distinct then sorted else s.iterable)

/-- `Stream.parallelProcess`: parallel filtering followed by `s.sort`.  The
merged collection is always a fresh `NewList`, so sorting never reaches the
source's backing array on this path. -/
def processPar (numCPU : Nat) (arrivals : List Nat) (s : StreamM T) : List T :=
  let merged := parallelHandler numCPU arrivals s s.iterable s.threads
  if s.sorts.isEmpty then merged else sortSliceModel s.sorts merged

/-- `Stream.process`: the parallel path whenever `s.threads != 1`, the single
pass otherwise.  Returns (processed result, source contents after the call). -/
def processGo (numCPU : Nat) (arrivals : List Nat) (s : StreamM T) : List T × List T :=
  if s.threads = 1 then process1 s
  else (processPar numCPU arrivals s, s.iterable)

/-- `Stream.ToArray()`: the processed result as an array. -/
def streamToArray (numCPU : Nat) (arrivals : List Nat) (s : StreamM T) : List T :=
  (processGo numCPU arrivals s).1

/-- The source collection's contents after a terminal call on the stream. -/
def sourceAfter (numCPU : Nat) (arrivals : List Nat) (s : StreamM T) : List T :=
  (processGo numCPU arrivals s).2

/-- `Stream.At(index, defaultValue...)`: process, `iterator.Skip(index)`, read
`Current()` (the element at `index`, or the zero value when out of range), and
return the caller's default when the retrieved value equals the zero value of
`T` and a default was supplied. -/
def streamAt (numCPU : Nat) (arrivals : List Nat) (s : StreamM T)
    (index : Nat) (dflt : Option T) : T :=
  let res := streamToArray numCPU arrivals s
  let ret := if index < res.length then res.getD index default else default
  match dflt with
  | some d => if ret = default then d else ret
  | none => ret

/-- `Stream.AtReverse(pos, defaultValue...)`: reads position `Len()-1-pos`
when that is non-negative, then applies the same zero-value/default test. -/
def streamAtReverse (numCPU : Nat) (arrivals : List Nat) (s : StreamM T)
    (pos : Nat) (dflt : Option T) : T :=
  let res := streamToArray numCPU arrivals s
  let ret := if pos < res.length then res.getD (res.length - 1 - pos) default else default
  match dflt with
  | some d => if ret = default then d else ret
  | none => ret

/-- `Stream.First(defaultValue...) = At(0, defaultValue...)`. -/
def streamFirst (numCPU : Nat) (arrivals : List Nat) (s : StreamM T)
    (dflt : Option T) : T :=
  streamAt numCPU arrivals s 0 dflt

/-- `Stream.Last(defaultValue...) = AtReverse(0, defaultValue...)`. -/
def streamLast (numCPU : Nat) (arrivals : List Nat) (s : StreamM T)
    (dflt : Option T) : T :=
  streamAtReverse numCPU arrivals s 0 dflt

/-- The generic `arrayCollection.Index(index)`: `(zero value, false)` out of
range, otherwise the element with `true`. -/
def arrayIndexGo (arr : List T) (index : Int) : T × Bool :=
  if index < 0 ∨ (arr.length : Int) ≤ index then (default, false)
  else (arr.getD index.toNat default, true)

/-- The generic `arrayCollection.removeFast(index)`: the first line rebuilds
the slice as `append(arr[0:index], arr[index:]...)` (contents unchanged), then
the last element is copied over position `index` and the slice is shortened by
one.  Call sites have already checked `0 <= index < len`. -/
def removeFastGo (arr : List T) (index : Nat) : List T :=
  let arr1 := arr.take index ++ arr.drop index
  match arr1.getLast? with
  | none => arr1.dropLast
  | some last => (arr1.set index last).dropLast

/-- The generic `arrayCollection.removeKeepOrder(index)`: the code rebuilds the
slice as `append(c.arr[0:index], c.arr[index:]...)` — the second slice starts
at `index`, not `index+1`, so the contents are unchanged. -/
def removeKeepOrderGo (arr : List T) (index : Nat) : List T :=
  arr.take index ++ arr.drop index

/-- The generic `arrayCollection.RemoveAt(index, keepOrder...)`: bounds check,
then one of the two removal policies; reports `true` whenever the index was in
range. -/
def arrayRemoveAtGo (arr : List T) (index : Int) (keepOrder : Bool) : List T × Bool :=
  if index < 0 ∨ (arr.length : Int) ≤ index then (arr, false)
  else if keepOrder then (removeKeepOrderGo arr index.toNat, true)
  else (removeFastGo arr index.toNat, true)

/-- The generic `arrayCollection.Add(item...)`: append, always `true`. -/
def arrayAddGo (arr : List T) (items : List T) : List T × Bool :=
  (arr ++ items, true)

/-- `CollectionBaseNoIterator.Contains` for the array collection: build the
`Distinct()` set from `ToArray()` and test membership in it. -/
def containsGo (arr : List T) (x : T) : Bool :=
  (dedupGo arr).contains x

/-- The loop of `CollectionBaseNoIterator.RemoveIf(condition, keepOrder...)`:
`count` is the length before the loop; at step `i` the element `Index(i)` of
the current contents is tested, and on a match `RemoveAt(i+removed)` is
attempted, incrementing `removed` when it reports `true`; the loop runs while
`i < count - removed`.  (`removed` never exceeds `count`, so the `Nat`
subtraction in the guard agrees with the Go `int` subtraction.)  The `fuel`
argument only makes the recursion structural: `i` grows by one each pass and
the guard requires `i < count`, so starting the loop with `fuel = count` the
fuel can only run out once the guard is already false, where both exits return
the same value. -/
def removeIfLoop (cond : T → Bool) (keepOrder : Bool) (count : Nat) :
    Nat → List T → Nat → Nat → List T × Nat
  | 0, arr, _, removed => (arr, removed)
  | fuel + 1, arr, i, removed =>
    if i < count - removed then
      if cond (arrayIndexGo arr (i : Int)).1 then
        match arrayRemoveAtGo arr ((i : Int) + (removed : Int)) keepOrder with
        | (arr1, true) => removeIfLoop cond keepOrder count fuel arr1 (i + 1) (removed + 1)
        | (arr1, false) => removeIfLoop cond keepOrder count fuel arr1 (i + 1) removed
      else removeIfLoop cond keepOrder count fuel arr (i + 1) removed
    else (arr, removed)

/-- `CollectionBaseNoIterator.RemoveIf(condition, keepOrder...)` on the array
collection: runs the loop and returns the new contents together with
`removed > 0`. -/
def removeIfGo (cond : T → Bool) (keepOrder : Bool) (arr : List T) : List T × Bool :=
  let out := removeIfLoop cond keepOrder arr.length arr.length arr 0 0
  (out.1, decide (0 < out.2))

/-- `mapCollection.RemoveAt(index)`: the key list of the backing map (modelled
in its synced state, `keys = m.map fst`), the guard
`index < 0 || len(keys) >= index` returning `false` without touching the map,
and otherwise `col.Delete(keys[index])` — which is only reachable when
`index > len(keys)`, where `keys[index]` panics (`none`). -/
def mapRemoveAtGo {K V : Type} [DecidableEq K] [DecidableEq V]
    (m : List (K × V)) (index : Int) : Option (List (K × V) × Bool) :=
  let keys := m.map Prod.fst
  if index < 0 ∨ index ≤ (keys.length : Int) then some (m, false)
  else none

/-- The runtime shapes `Map`/`MapNonComparable` dispatch over: a raw slice, an
`IIterable` (collections and lists included), an `IIterator` (modelled at its
start position, holding its remaining elements), a stream, or any other value
(the unsupported shape). -/
inductive MapSource (F : Type) where
  | arr (l : List F)
  | iterable (l : List F)
  | iterator (l : List F)
  | stream (s : StreamM F)
  | unsupported

/-- `mapIterator(from, f)`: the conversion function applied to each element the
iterator yields, in iteration order. -/
def mapIteratorGo {F To : Type} (l : List F) (f : F → To) : List To := l.map f

/-- `Map[From, To](source, f)`: type-switch dispatch.  Slices are wrapped in a
fresh list and iterated; iterables and iterators are iterated directly; a
stream is processed first (`mapStream` uses `from.ToCollection()`); any other
shape panics with "invalid mapping source" (`none`). -/
def mapGo {F To : Type} [DecidableEq F] [Inhabited F] (numCPU : Nat)
    (arrivals : List Nat) (src : MapSource F) (f : F → To) : Option (List To) :=
  match src with
  | .arr l => some (mapIteratorGo l f)
  | .iterable l => some (mapIteratorGo l f)
  | .iterator l => some (mapIteratorGo l f)
  | .stream s => some (mapIteratorGo (streamToArray numCPU arrivals s) f)
  | .unsupported => none

/-- `MapNonComparable[From, To](source, f)`: the type switch handles slices and
iterables, but its `case IIterator[From]:` has an empty body, so an iterator
falls through to the panic (`none`); a stream is not in the switch at all. -/
def mapNonComparableGo {F To : Type} (src : MapSource F) (f : F → To) : Option (List To) :=
  match src with
  | .arr l => some (mapIteratorGo l f)
  | .iterable l => some (mapIteratorGo l f)
  | .iterator _ => none
  | .stream _ => none
  | .unsupported => none

/-- Concrete stream for evaluating the pipeline at a sort-only chain:
`FromArray([]int{2, 1}).Sort(ascending)`. -/
def c1Stream : StreamM Int := ⟨[2, 1], [], [⟨fun a b => a - b, false⟩], false, 1⟩

/-- Concrete parallel stream with no registered filters: `FromArray([]int{1, 2}, 2)`. -/
def c3Par : StreamM Int := ⟨[1, 2], [], [], false, 2⟩

/-- The same source single-threaded: `FromArray([]int{1, 2})`. -/
def c3Single : StreamM Int := ⟨[1, 2], [], [], false, 1⟩

/-- Concrete parallel distinct stream: `FromArray([]int{1, 1}, 2).Distinct()`. -/
def c5Par : StreamM Int := ⟨[1, 1], [], [], true, 2⟩

/-- The same distinct stream single-threaded: `FromArray([]int{1, 1}).Distinct()`. -/
def c5Single : StreamM Int := ⟨[1, 1], [], [], true, 1⟩

/-- Concrete predicate for the RemoveIf evaluation: evenness on `Int`. -/
def c7Cond (x : Int) : Bool := decide (x % 2 = 0)

/-- Concrete conversion function for the Map evaluations. -/
def c9f : Int → Int := fun n => n + 1

/-- Concrete ascending comparator stage on `Fin 3` for the sorting claim. -/
def c4Stage : SortStage (Fin 3) := ⟨fun a b => (a.val : Int) - (b.val : Int), false⟩

/-- Concrete stream for the sorting claim: source `[2, 0, 1]` over `Fin 3`
with the single ascending comparator registered and two parallel workers. -/
def c4Stream : StreamM (Fin 3) := ⟨[2, 0, 1], [], [c4Stage], false, 2⟩

/-- The processed result of `c4Stream` (4 CPUs, workers arriving in order). -/
def c4Res : List (Fin 3) := streamToArray 4 [0, 1] c4Stream

/-- Concrete stream whose processed result holds the zero value of `Int` at an
in-bounds position: `FromArray([]int{0})`. -/
def c10Stream : StreamM Int := ⟨[0], [], [], false, 1⟩

/-! Helper lemmas about the sort model. -/

omit [DecidableEq T] [Inhabited T] in
theorem filtersAll_one (f : T → Bool) : filtersAll [f] = f := by
  funext x
  simp [filtersAll]

omit [DecidableEq T] [Inhabited T] in
theorem lessGo_eq_false_iff (sorts : List (SortStage T)) (a b : T) :
    lessGo sorts a b = false ↔ 0 ≤ chainCmp sorts a b := by
  simp [lessGo, Int.not_lt]

omit [DecidableEq T] [Inhabited T] in
theorem sortSliceModel_sorted (sorts : List (SortStage T))
    (hanti : ∀ a b, chainCmp sorts a b = -chainCmp sorts b a)
    (htrans : ∀ a b c, chainCmp sorts a b ≤ 0 → chainCmp sorts b c ≤ 0 →
      chainCmp sorts a c ≤ 0)
    (l : List T) :
    List.Sorted (fun a b => lessGo sorts b a = false) (sortSliceModel sorts l) := by
  haveI : IsTotal T (fun a b => lessGo sorts b a = false) := by
    constructor
    intro a b
    rcases le_or_lt 0 (chainCmp sorts b a) with h | h
    · exact Or.inl ((lessGo_eq_false_iff sorts b a).mpr h)
    · refine Or.inr ((lessGo_eq_false_iff sorts a b).mpr ?_)
      have ha := hanti a b
      omega
  haveI : IsTrans T (fun a b => lessGo sorts b a = false) := by
    constructor
    intro a b c hab hbc
    rw [lessGo_eq_false_iff] at hab hbc ⊢
    have h1 := hanti a b
    have h2 := hanti b c
    have h3 := hanti a c
    have h4 := htrans a b c (by omega) (by omega)
    omega
  unfold sortSliceModel
  exact List.sorted_insertionSort _ l

omit [DecidableEq T] [Inhabited T] in
theorem sorted_pairwise_chainCmp (sorts : List (SortStage T))
    (hanti : ∀ a b, chainCmp sorts a b = -chainCmp sorts b a)
    (l : List T)
    (hsor : List.Sorted (fun a b => lessGo sorts b a = false) l)
    (i j : Nat) (hi : i < l.length) (hj : j < l.length) (hij : i < j) :
    chainCmp sorts (l.get ⟨i, hi⟩) (l.get ⟨j, hj⟩) ≤ 0 := by
  have h := List.pairwise_iff_get.mp hsor ⟨i, hi⟩ ⟨j, hj⟩ hij
  rw [lessGo_eq_false_iff] at h
  have ha := hanti (l.get ⟨i, hi⟩) (l.get ⟨j, hj⟩)
  omega

omit [Inhabited T] in
theorem streamToArray_single_sorted (numCPU : Nat) (arrivals : List Nat)
    (s : StreamM T) (ht : s.threads = 1) (hs : s.sorts ≠ []) :
    streamToArray numCPU arrivals s =
      sortSliceModel s.sorts (iterHandler s s.iterable 0 s.iterable.length) := by
  have hemp : s.sorts.isEmpty = false := by
    cases hsorts : s.sorts with
    | nil => exact absurd hsorts hs
    | cons c rest => rfl
  unfold streamToArray processGo process1
  rw [ht]
  simp [hemp]

omit [Inhabited T] in
theorem streamToArray_sorted_shape (numCPU : Nat) (arrivals : List Nat)
    (s : StreamM T) (hs : s.sorts ≠ []) :
    ∃ l, streamToArray numCPU arrivals s = sortSliceModel s.sorts l := by
  have hemp : s.sorts.isEmpty = false := by
    cases hsorts : s.sorts with
    | nil => exact absurd hsorts hs
    | cons c rest => rfl
  by_cases ht : s.threads = 1
  · exact ⟨_, streamToArray_single_sorted numCPU arrivals s ht hs⟩
  · refine ⟨parallelHandler numCPU arrivals s s.iterable s.threads, ?_⟩
    unfold streamToArray processGo processPar
    simp [ht, hemp]

/-! The claims. -/

/-- C1: the claim states that executing any registered pipeline leaves the
original source container's contents and order unchanged.  The code violates
this: when a sort stage is registered with no filters and no distinct flag in
single-threaded mode, `iterHandler` returns the source collection itself,
`ToArray` on it aliases the backing array, and `sort.Slice` reorders that
array in place.  Evaluated here: the source `[2, 1]` of a sort-only pipeline
reads back `[1, 2]` after the terminal call. -/
theorem c1_sort_without_filters_mutates_source :
    c1Stream.iterable = [2, 1] ∧
    streamToArray 1 [] c1Stream = [1, 2] ∧
    sourceAfter 1 [] c1Stream = [1, 2] ∧
    sourceAfter 1 [] c1Stream ≠ c1Stream.iterable := by decide

omit [Inhabited T] in
/-- C2: in single-threaded mode (`threads = 1`), the processed result of a
stream with `Filter(f)` registered is exactly the source elements satisfying
`f`, in the source's relative order. -/
theorem c2_single_thread_filter_exact (numCPU : Nat) (arrivals : List Nat)
    (src : List T) (f : T → Bool) :
    streamToArray numCPU arrivals ⟨src, [f], [], false, 1⟩ = src.filter f := by
  simp [streamToArray, processGo, process1, iterHandler, filtersAll_one]

/-- C3: the claim states that for any worker count above one and any (possibly
empty) filter list the parallel result has the same multiset of elements as
the single-threaded result.  The code violates this for the empty filter list:
`iterHandler` then returns the whole source regardless of the worker's range,
so every worker emits the full source and the merged result holds `cores`
copies of it.  Evaluated here: source `[1, 2]` with two workers yields
`[1, 2, 1, 2]`, not a permutation of the single-threaded `[1, 2]`. -/
theorem c3_parallel_empty_filters_duplicates_elements :
    streamToArray 4 [0, 1] c3Par = [1, 2, 1, 2] ∧
    streamToArray 4 [] c3Single = [1, 2] ∧
    ¬ (streamToArray 4 [0, 1] c3Par).Perm (streamToArray 4 [] c3Single) := by decide

omit [Inhabited T] in
/-- C4: with at least one comparator registered (and the comparator chain a
consistent three-way comparison: antisymmetric in sign and transitive at or
below zero), any two elements of the processed result — under every
worker-count setting, since both the single and the parallel path end in
`s.sort` — appear in an order the chain weakly agrees with: the first-non-zero
descending-adjusted comparator value between an earlier and a later element is
never positive; in particular, when the primary comparator distinguishes the
two elements its adjusted sign is negative, and when the primary ties the rest
of the chain weakly agrees as well. -/
theorem c4_result_ordered_by_comparator_chain (numCPU : Nat) (arrivals : List Nat)
    (s : StreamM T) (hs : s.sorts ≠ [])
    (hanti : ∀ a b, chainCmp s.sorts a b = -chainCmp s.sorts b a)
    (htrans : ∀ a b c, chainCmp s.sorts a b ≤ 0 → chainCmp s.sorts b c ≤ 0 →
      chainCmp s.sorts a c ≤ 0)
    (i j : Nat) (hi : i < (streamToArray numCPU arrivals s).length)
    (hj : j < (streamToArray numCPU arrivals s).length) (hij : i < j) :
    chainCmp s.sorts ((streamToArray numCPU arrivals s).get ⟨i, hi⟩)
        ((streamToArray numCPU arrivals s).get ⟨j, hj⟩) ≤ 0 ∧
    ∀ c rest, s.sorts = c :: rest →
      (applyStage c ((streamToArray numCPU arrivals s).get ⟨i, hi⟩)
          ((streamToArray numCPU arrivals s).get ⟨j, hj⟩) ≠ 0 →
        applyStage c ((streamToArray numCPU arrivals s).get ⟨i, hi⟩)
          ((streamToArray numCPU arrivals s).get ⟨j, hj⟩) < 0) ∧
      (applyStage c ((streamToArray numCPU arrivals s).get ⟨i, hi⟩)
          ((streamToArray numCPU arrivals s).get ⟨j, hj⟩) = 0 →
        chainCmp rest ((streamToArray numCPU arrivals s).get ⟨i, hi⟩)
          ((streamToArray numCPU arrivals s).get ⟨j, hj⟩) ≤ 0) := by
  have hsor : List.Sorted (fun a b => lessGo s.sorts b a = false)
      (streamToArray numCPU arrivals s) := by
    obtain ⟨l, hl⟩ := streamToArray_sorted_shape numCPU arrivals s hs
    rw [hl]
    exact sortSliceModel_sorted s.sorts hanti htrans l
  have h1 := sorted_pairwise_chainCmp s.sorts hanti _ hsor i j hi hj hij
  refine ⟨h1, ?_⟩
  intro c rest hrw
  rw [hrw] at h1
  simp only [chainCmp] at h1
  by_cases hz : applyStage c ((streamToArray numCPU arrivals s).get ⟨i, hi⟩)
      ((streamToArray numCPU arrivals s).get ⟨j, hj⟩) = 0
  · rw [if_pos hz] at h1
    exact ⟨fun hne => absurd hz hne, fun _ => h1⟩
  · rw [if_neg hz] at h1
    exact ⟨fun _ => lt_of_le_of_ne h1 hz, fun heq => absurd heq hz⟩

/-- Witness for C4: the ascending comparator on `Fin 3` satisfies the
hypotheses, and on the concrete two-worker pipeline over source `[2, 0, 1]`
the theorem yields the chain inequality between the first two elements of the
processed (parallel, then sorted) result. -/
theorem c4_result_ordered_by_comparator_chain_witness :
    ((∀ a b : Fin 3, chainCmp [c4Stage] a b = -chainCmp [c4Stage] b a) ∧
      (0 : Nat) < 1 ∧ 1 < c4Res.length) ∧
    chainCmp [c4Stage] (c4Res.get ⟨0, by decide⟩) (c4Res.get ⟨1, by decide⟩) ≤ 0 :=
  ⟨⟨by decide, by decide, by decide⟩,
    (c4_result_ordered_by_comparator_chain 4 [0, 1] c4Stream
      (List.cons_ne_nil c4Stage []) (by decide) (by decide) 0 1
      (by decide) (by decide) (by decide)).1⟩

/-- C5: the claim states that with the distinct flag the processed result
holds exactly one occurrence of each value surviving the filters, for every
worker-count setting.  The code violates this for worker counts above one:
each parallel worker deduplicates only its own range and
`parallelProcessHandler` merges the per-range sets into a plain list without
further deduplication.  Evaluated here: `Distinct()` over source `[1, 1]`
with two workers yields `[1, 1]`, while the single-threaded run yields
`[1]`. -/
theorem c5_parallel_distinct_keeps_cross_range_duplicates :
    streamToArray 4 [0, 1] c5Par = [1, 1] ∧
    streamToArray 4 [] c5Single = [1] := by decide

/-- C6: the claim states that after `Add(x)` the container contains `x`, and
after `RemoveAt` at the position of a unique `x` (either removal policy) it no
longer does.  The code violates the removal half: the order-preserving
`removeKeepOrder` rebuilds the array from slices `[0:index]` and `[index:]`
(instead of `[index+1:]`), leaving the contents unchanged, and
`mapCollection.RemoveAt` inverts its bounds check (`len(keys) >= index`), so
it returns `false` and removes nothing at every valid index.  Evaluated here
on the array collection `[5]` and the map collection `{1: 2}`. -/
theorem c6_removeAt_keepOrder_leaves_element_contained :
    containsGo (arrayAddGo ([] : List Int) [5]).1 5 = true ∧
    arrayRemoveAtGo ([5] : List Int) 0 true = ([5], true) ∧
    containsGo (arrayRemoveAtGo ([5] : List Int) 0 true).1 5 = true ∧
    mapRemoveAtGo [((1 : Int), (2 : Int))] 0 = some ([(1, 2)], false) := by decide

/-- C7: the claim states that `RemoveIf(predicate)` removes every element
satisfying the predicate.  The code violates this: the loop reads
`Index(i)` from the already-shrunk contents but removes at `i+removed` and
shortens its own bound by `removed`, so matches drift out of reach.
Evaluated here: removing the even elements of `[2, 4]` removes the `2`, then
attempts `RemoveAt(2)` (out of range) and stops, returning `([4], true)` with
the even element `4` still present. -/
theorem c7_removeIf_leaves_matching_element :
    removeIfGo c7Cond false [2, 4] = ([4], true) ∧
    c7Cond 4 = true := by decide

/-- C8: the claim states the effective parallel worker count is capped at the
available hardware parallelism.  The code violates this: `getCores` computes
`maxCores = runtime.NumCPU()` but returns a positive request unchanged, so
only the element count caps it.  Evaluated here: with 2 CPUs, a request of 3
workers over 5 elements runs 3 workers. -/
theorem c8_effective_threads_exceed_numCPU :
    effectiveThreads 2 3 5 = 3 ∧
    ¬ effectiveThreads 2 3 5 ≤ 2 ∧
    effectiveThreads 2 (-1) 5 = 2 := by decide

/-- C9: the claim states that the conversion bridge maps every documented
source shape elementwise in iteration order and panics exactly on unsupported
shapes.  `Map` does; but `MapNonComparable` violates the "exactly": its
`case IIterator[From]` has an empty body, so an iterator — a shape its own
documentation lists as accepted — falls through to the
"invalid mapping source" panic.  Evaluated here on an iterator over
`[1, 2, 3]`. -/
theorem c9_mapNonComparable_iterator_source_rejected :
    mapNonComparableGo (MapSource.iterator [(1 : Int), 2, 3]) c9f = none ∧
    mapGo 1 [] (MapSource.iterator [(1 : Int), 2, 3]) c9f = some [2, 3, 4] ∧
    mapGo 1 [] (MapSource.arr [(1 : Int), 2, 3]) c9f = some [2, 3, 4] ∧
    mapNonComparableGo (MapSource.arr [(1 : Int), 2, 3]) c9f = some [2, 3, 4] ∧
    mapGo 1 [] (MapSource.unsupported : MapSource Int) c9f = none := by decide

/-- C10: when the processed result holds the zero value of the element type at
an in-bounds position, `At` with a default returns the default instead of the
element — and likewise `AtReverse`, `First` and `Last` — because emptiness is
detected only by comparing the retrieved value with the zero value. -/
theorem c10_zero_value_replaced_by_default (numCPU : Nat) (arrivals : List Nat)
    (s : StreamM T) (i pos : Nat) (d : T) :
    (i < (streamToArray numCPU arrivals s).length →
      (streamToArray numCPU arrivals s).getD i default = default →
      streamAt numCPU arrivals s i (some d) = d) ∧
    (pos < (streamToArray numCPU arrivals s).length →
      (streamToArray numCPU arrivals s).getD
          ((streamToArray numCPU arrivals s).length - 1 - pos) default = default →
      streamAtReverse numCPU arrivals s pos (some d) = d) ∧
    (0 < (streamToArray numCPU arrivals s).length →
      (streamToArray numCPU arrivals s).getD 0 default = default →
      streamFirst numCPU arrivals s (some d) = d) ∧
    (0 < (streamToArray numCPU arrivals s).length →
      (streamToArray numCPU arrivals s).getD
          ((streamToArray numCPU arrivals s).length - 1) default = default →
      streamLast numCPU arrivals s (some d) = d) := by
  refine ⟨fun h1 h2 => ?_, fun h1 h2 => ?_, fun h1 h2 => ?_, fun h1 h2 => ?_⟩
  · rw [List.getD_eq_getElem _ _ h1] at h2
    simp [streamAt, h1, h2]
  · have hb : (streamToArray numCPU arrivals s).length - 1 - pos <
        (streamToArray numCPU arrivals s).length := by omega
    rw [List.getD_eq_getElem _ _ hb] at h2
    simp [streamAtReverse, h1, h2, List.getElem?_eq_getElem hb]
  · rw [List.getD_eq_getElem _ _ h1] at h2
    simp [streamFirst, streamAt, h1, h2]
  · have hb : (streamToArray numCPU arrivals s).length - 1 <
        (streamToArray numCPU arrivals s).length := by omega
    rw [List.getD_eq_getElem _ _ hb] at h2
    simp [streamLast, streamAtReverse, h1, h2, List.getElem?_eq_getElem hb]

/-- Witness for C10: the stream over source `[0]` holds the `Int` zero value
at position 0, and all four accessors return the supplied default `7`. -/
theorem c10_zero_value_replaced_by_default_witness :
    ((0 : Nat) < (streamToArray 1 [] c10Stream).length ∧
      (streamToArray 1 [] c10Stream).getD 0 default = default) ∧
    streamAt 1 [] c10Stream 0 (some 7) = 7 ∧
    streamAtReverse 1 [] c10Stream 0 (some 7) = 7 ∧
    streamFirst 1 [] c10Stream (some 7) = 7 ∧
    streamLast 1 [] c10Stream (some 7) = 7 :=
  ⟨⟨by decide, by decide⟩,
    (c10_zero_value_replaced_by_default 1 [] c10Stream 0 0 7).1 (by decide) (by decide),
    (c10_zero_value_replaced_by_default 1 [] c10Stream 0 0 7).2.1 (by decide) (by decide),
    (c10_zero_value_replaced_by_default 1 [] c10Stream 0 0 7).2.2.1 (by decide) (by decide),
    (c10_zero_value_replaced_by_default 1 [] c10Stream 0 0 7).2.2.2 (by decide) (by decide)⟩

end GoStreams
